import Mathlib

/-!
# Telemetry Conformance Validation Engine — verification development

A shallow embedding of the validation core of the `otel_genai_framework`
repository (schema-constraint evaluation, record matching, expected-vs-actual
span-tree validation, structural rules), together with theorems settling the
specification's claims about it.

The repository ships the engine's scenarios, documentation and improvement
plan; the engine modules themselves (`otel_genai_validator.py`,
`schema_integration.py`, `scenario_runner.py`) are documented but their code
is not part of the source snapshot, so the engine here is modelled from the
specification's component contracts (§3–§4.5).  The `verify_tool_span`
helper, whose code is given verbatim in `improvement-plan.md`, is embedded
directly from that code.
-/

set_option autoImplicit false

namespace OtelValidation

/-- Modelled from the spec: `AttributeValue` — a scalar value carried by a
span/event/metric attribute (string, integer or boolean; the repository's
scenarios carry nested tool-call descriptors only as serialized strings, and
floating-point values are outside the modelled fragment). -/
inductive AttributeValue where
  | str (s : String)
  | int (n : Int)
  | bool (b : Bool)
  deriving DecidableEq, Repr

/-- Modelled from the spec: `AttributeMap` — a mapping from dot-namespaced
attribute key to `AttributeValue`, represented as an association list in
capture order; keys are unique by the data-model invariant. -/
def AttributeMap : Type := List (String × AttributeValue)

instance : DecidableEq AttributeMap := by
  unfold AttributeMap
  infer_instance

instance : Repr AttributeMap := by
  unfold AttributeMap
  infer_instance

/-- First value stored under `key`, if any. -/
def lookupAttr : AttributeMap → String → Option AttributeValue
  | [], _ => none
  | (k, v) :: rest, key => if k = key then some v else lookupAttr rest key

/-- The keys of an attribute map, in order. -/
def attrKeys (m : AttributeMap) : List String := m.map Prod.fst

/-- Every key of `exp` is present in `act` with the same value (the
"expected attributes are a required subset" comparison of §4.4 step 3 and the
metric attribute requirement of §4.3). -/
def attrsSubset (exp act : AttributeMap) : Bool :=
  (attrKeys exp).all fun k => lookupAttr act k = lookupAttr exp k

/-- Number of expected-attribute keys whose values agree between `exp` and a
candidate's map `act` (§4.3 scoring). -/
def attrScore (exp act : AttributeMap) : Nat :=
  (attrKeys exp).countP fun k => lookupAttr act k = lookupAttr exp k

/-- Modelled from the spec: requirement level of an attribute constraint. -/
inductive RequirementLevel where
  | required
  | recommended
  | conditionallyRequired
  | optIn
  deriving DecidableEq, Repr

/-- Modelled from the spec: the tagged condition predicate of a
conditionally-required constraint — an attribute-equality test or a
sibling-event-presence test, evaluated uniformly (§9, §4.2). -/
inductive Condition where
  | attrEq (key : String) (value : AttributeValue)
  | siblingPresent (eventName : String)
  deriving DecidableEq, Repr

/-- Modelled from the spec: value type tag of a constraint (the modelled
fragment covers string, int and boolean tags). -/
inductive TypeTag where
  | string
  | int
  | boolean
  deriving DecidableEq, Repr

/-- The runtime type tag of a concrete value. -/
def typeOf : AttributeValue → TypeTag
  | .str _ => .string
  | .int _ => .int
  | .bool _ => .boolean

/-- Modelled from the spec: `AttributeConstraint` — key, requirement level,
optional condition, optional allowed-value enumeration, optional type tag. -/
structure AttributeConstraint where
  key : String
  level : RequirementLevel
  condition : Option Condition := none
  allowedValues : Option (List AttributeValue) := none
  typeTag : Option TypeTag := none
  deriving DecidableEq, Repr

/-- Modelled from the spec: the record context a constraint is evaluated
against — the record's own attribute map plus the names of its attached
events (for sibling-presence conditions). -/
structure EvalRecord where
  attributes : AttributeMap
  eventNames : List String := []
  deriving DecidableEq, Repr

/-- Modelled from the spec: result of evaluating one constraint against one
record. -/
inductive ConstraintResult where
  | satisfied
  | violated (reason : String)
  | notApplicable
  deriving DecidableEq, Repr

namespace ConstraintEvaluator

/-- Evaluate a condition predicate against the record's own context. -/
def evalCondition (c : Condition) (r : EvalRecord) : Bool :=
  match c with
  | .attrEq k v => lookupAttr r.attributes k = some v
  | .siblingPresent n => r.eventNames.contains n

/-- Checks on a present value: allowed-value enumeration membership, then
value-type tag (§4.2 steps 3–4). -/
def checkValue (c : AttributeConstraint) (v : AttributeValue) : ConstraintResult :=
  match c.allowedValues with
  | some allowed =>
    if allowed.contains v then
      match c.typeTag with
      | some t => if typeOf v = t then .satisfied else .violated "type mismatch"
      | none => .satisfied
    else .violated "value not in allowed set"
  | none =>
    match c.typeTag with
    | some t => if typeOf v = t then .satisfied else .violated "type mismatch"
    | none => .satisfied

/-- The presence/value part of evaluation, reached only once any condition
has been found to hold (§4.2 steps 2–5). -/
def evalCore (c : AttributeConstraint) (r : EvalRecord) : ConstraintResult :=
  match lookupAttr r.attributes c.key with
  | none =>
    match c.level with
    | .required => .violated "missing required attribute"
    | .conditionallyRequired => .violated "missing required attribute"
    | .recommended => .satisfied
    | .optIn => .satisfied
  | some v =>
    match c.level with
    | .recommended => .satisfied
    | .optIn => .satisfied
    | _ => checkValue c v

/-- Modelled from the spec: `ConstraintEvaluator.evaluate(constraint, record)`
(§4.2).  A false condition short-circuits to not-applicable; `recommended`
and `opt-in` levels are informational and never produce a violation. -/
def evaluate (c : AttributeConstraint) (r : EvalRecord) : ConstraintResult :=
  match c.condition with
  | some cond => if evalCondition cond r then evalCore c r else .notApplicable
  | none => evalCore c r

end ConstraintEvaluator

namespace RecordMatcher

/-- Select the element with the greatest measure, keeping the earliest one on
ties (the §4.3 "highest score, earliest capture order" selection). -/
def selectBest {α : Type} (f : α → Nat) : List α → Option α
  | [] => none
  | x :: xs =>
    match selectBest f xs with
    | none => some x
    | some y => if f x < f y then some y else some x

end RecordMatcher

/-- Modelled from the spec: a span status (code plus description). -/
structure SpanStatus where
  statusCode : String
  description : String
  deriving DecidableEq, Repr

/-- Modelled from the spec: a recorded/expected exception (type plus message). -/
structure SpanException where
  exType : String
  message : String
  deriving DecidableEq, Repr

/-- Modelled from the spec: `ExpectedEvent`. -/
structure ExpectedEvent where
  name : String
  attributes : AttributeMap
  deriving DecidableEq, Repr

/-- Modelled from the spec: `ActualEvent`. -/
structure ActualEvent where
  name : String
  attributes : AttributeMap
  deriving DecidableEq, Repr

/-- Modelled from the spec: `ExpectedMetric` — name, attribute map used both
as match key and required values, optional exact expected numeric value. -/
structure ExpectedMetric where
  name : String
  attributes : AttributeMap
  value : Option Int := none
  deriving DecidableEq, Repr

/-- Modelled from the spec: `ActualMetric` — a captured metric data point. -/
structure ActualMetric where
  name : String
  attributes : AttributeMap
  value : Int
  deriving DecidableEq, Repr

/-- Modelled from the spec: `ExpectedSpan` — name, expected attributes,
expected events, expected metrics, optional expected status and exception,
referenced schema identifiers, and child expected spans. -/
inductive ExpectedSpan where
  | node (name : String) (attributes : AttributeMap)
      (events : List ExpectedEvent) (metrics : List ExpectedMetric)
      (status : Option SpanStatus) (exception : Option SpanException)
      (schemas : List String) (children : List ExpectedSpan)

/-- Modelled from the spec: `ActualSpan` — a captured span with its events
and children in capture order. -/
inductive ActualSpan where
  | node (name : String) (attributes : AttributeMap)
      (events : List ActualEvent) (status : Option SpanStatus)
      (exception : Option SpanException) (children : List ActualSpan)

def ExpectedSpan.name : ExpectedSpan → String
  | .node n _ _ _ _ _ _ _ => n

def ExpectedSpan.attributes : ExpectedSpan → AttributeMap
  | .node _ a _ _ _ _ _ _ => a

def ExpectedSpan.events : ExpectedSpan → List ExpectedEvent
  | .node _ _ e _ _ _ _ _ => e

def ExpectedSpan.metrics : ExpectedSpan → List ExpectedMetric
  | .node _ _ _ m _ _ _ _ => m

def ExpectedSpan.status : ExpectedSpan → Option SpanStatus
  | .node _ _ _ _ s _ _ _ => s

def ExpectedSpan.exception : ExpectedSpan → Option SpanException
  | .node _ _ _ _ _ e _ _ => e

def ExpectedSpan.schemas : ExpectedSpan → List String
  | .node _ _ _ _ _ _ s _ => s

def ExpectedSpan.children : ExpectedSpan → List ExpectedSpan
  | .node _ _ _ _ _ _ _ c => c

def ActualSpan.name : ActualSpan → String
  | .node n _ _ _ _ _ => n

def ActualSpan.attributes : ActualSpan → AttributeMap
  | .node _ a _ _ _ _ => a

def ActualSpan.events : ActualSpan → List ActualEvent
  | .node _ _ e _ _ _ => e

def ActualSpan.status : ActualSpan → Option SpanStatus
  | .node _ _ _ s _ _ => s

def ActualSpan.exception : ActualSpan → Option SpanException
  | .node _ _ _ _ e _ => e

def ActualSpan.children : ActualSpan → List ActualSpan
  | .node _ _ _ _ _ c => c

/-- The evaluation context a span presents to `ConstraintEvaluator`. -/
def ActualSpan.record (s : ActualSpan) : EvalRecord :=
  ⟨s.attributes, s.events.map ActualEvent.name⟩

/-- A status option denotes an error iff its status code is `ERROR`. -/
def statusIsError : Option SpanStatus → Bool
  | some st => st.statusCode = "ERROR"
  | none => false

/-- A span carries an error status iff its status code is `ERROR`. -/
def ActualSpan.isError (s : ActualSpan) : Bool :=
  statusIsError s.status

/-- Modelled from the spec: `SchemaDefinition` — identifier, kind, attribute
constraints. -/
inductive SchemaKind where
  | span
  | event
  | metric
  deriving DecidableEq, Repr

structure SchemaDefinition where
  id : String
  kind : SchemaKind
  attributes : List AttributeConstraint
  deriving DecidableEq, Repr

/-- Modelled from the spec: `SchemaRegistry` — in-memory catalog of schema
definitions keyed by identifier. -/
def SchemaRegistry : Type := List SchemaDefinition

instance : DecidableEq SchemaRegistry := by
  unfold SchemaRegistry
  infer_instance

/-- Modelled from the spec: `lookup(identifier)` — first definition
registered under the identifier, if any. -/
def SchemaRegistry.lookup (reg : SchemaRegistry) (id : String) : Option SchemaDefinition :=
  reg.find? fun d => d.id = id

/-- Modelled from the spec: `register(definition)` adds or replaces a
definition under its identifier. -/
def SchemaRegistry.register (reg : SchemaRegistry) (d : SchemaDefinition) : SchemaRegistry :=
  d :: reg.filter fun e => e.id ≠ d.id

/-- Modelled from the spec: per-pairing outcome taxonomy. -/
inductive Outcome where
  | pass
  | failMissing
  | failExtra
  | failAttributeMismatch
  | failSchemaViolation
  deriving DecidableEq, Repr

/-- One attribute-level diff: key, expected value, actual value. -/
structure Diff where
  key : String
  expected : Option AttributeValue
  actual : Option AttributeValue
  deriving DecidableEq, Repr

/-- Validation result for a leaf record (an event or a metric). -/
structure LeafResult where
  name : String
  outcome : Outcome
  diffs : List Diff
  deriving DecidableEq, Repr

/-- Modelled from the spec: the per-span node of a `ValidationReport` —
outcome, attribute diffs, schema violations, event/metric results, child
results. -/
inductive ResultNode where
  | node (name : String) (outcome : Outcome) (diffs : List Diff)
      (violations : List String) (events : List LeafResult)
      (metrics : List LeafResult) (children : List ResultNode)

def ResultNode.name : ResultNode → String
  | .node n _ _ _ _ _ _ => n

def ResultNode.outcome : ResultNode → Outcome
  | .node _ o _ _ _ _ _ => o

def ResultNode.diffs : ResultNode → List Diff
  | .node _ _ d _ _ _ _ => d

def ResultNode.violations : ResultNode → List String
  | .node _ _ _ v _ _ _ => v

def ResultNode.events : ResultNode → List LeafResult
  | .node _ _ _ _ e _ _ => e

def ResultNode.metrics : ResultNode → List LeafResult
  | .node _ _ _ _ _ m _ => m

def ResultNode.children : ResultNode → List ResultNode
  | .node _ _ _ _ _ _ c => c

/-- Diff entries for the given expected keys against an actual map. -/
def attrDiffsAux (exp act : AttributeMap) : List String → List Diff
  | [] => []
  | k :: ks =>
    if lookupAttr act k = lookupAttr exp k then attrDiffsAux exp act ks
    else { key := k, expected := lookupAttr exp k, actual := lookupAttr act k } ::
      attrDiffsAux exp act ks

/-- Diffs between the explicitly expected attributes and an actual map: one
entry per expected key whose looked-up value differs (§4.4 step 3; extra
actual attributes are never a failure). -/
def attrDiffs (exp act : AttributeMap) : List Diff :=
  attrDiffsAux exp act (attrKeys exp)

/-- Exact-equality comparison of an expected status, surfaced as a pseudo
attribute diff under the key `status` (§4.4 step 3). -/
def statusDiffs (exp : Option SpanStatus) (act : Option SpanStatus) : List Diff :=
  match exp with
  | none => []
  | some s =>
    if act = some s then []
    else
      [{ key := "status", expected := some (.str s.statusCode),
         actual := act.map fun t => .str t.statusCode }]

/-- Exact-equality comparison of an expected exception, surfaced as a pseudo
attribute diff under the key `exception` (§4.4 step 3). -/
def exceptionDiffs (exp : Option SpanException) (act : Option SpanException) : List Diff :=
  match exp with
  | none => []
  | some e =>
    if act = some e then []
    else
      [{ key := "exception", expected := some (.str e.exType),
         actual := act.map fun t => .str t.exType }]

/-- Violation messages for one schema definition's constraints against a
record. -/
def constraintViolations (id : String) (cs : List AttributeConstraint)
    (r : EvalRecord) : List String :=
  match cs with
  | [] => []
  | c :: rest =>
    match ConstraintEvaluator.evaluate c r with
    | .violated reason =>
      (id ++ "/" ++ c.key ++ ": " ++ reason) :: constraintViolations id rest r
    | _ => constraintViolations id rest r

/-- All schema-constraint violations a span's record incurs across its
referenced schema identifiers (§4.4 step 3); unknown identifiers are handled
by the escalation pre-check in `validate`. -/
def schemaViolations (reg : SchemaRegistry) (schemas : List String) (r : EvalRecord) : List String :=
  match schemas with
  | [] => []
  | id :: rest =>
    (match reg.lookup id with
     | some d => constraintViolations id d.attributes r
     | none => []) ++ schemaViolations reg rest r

namespace RecordMatcher

/-- Modelled from the spec: span/event candidate filtering — exact name
equality is the primary discriminator (§4.3). -/
def namedCandidates (name : String) (pool : List ActualSpan) : List ActualSpan :=
  pool.filter fun a => a.name = name

/-- Modelled from the spec: `match(expected, actualCandidates)` for spans —
among same-named candidates, pick the one agreeing on the most expected
attribute keys, earliest capture order on ties; `none` encodes `NotFound`. -/
def matchSpan (name : String) (attrs : AttributeMap) (pool : List ActualSpan) : Option ActualSpan :=
  selectBest (fun a => attrScore attrs a.attributes) (namedCandidates name pool)

/-- Modelled from the spec: `match` for events (same name/score pipeline). -/
def matchEvent (ee : ExpectedEvent) (pool : List ActualEvent) : Option ActualEvent :=
  selectBest (fun a => attrScore ee.attributes a.attributes)
    (pool.filter fun a => a.name = ee.name)

/-- Modelled from the spec: metric scoring — count of agreeing expected
attribute keys, with exact value equality participating in the score when an
expected numeric value is given (§4.3). -/
def metricScore (em : ExpectedMetric) (am : ActualMetric) : Nat :=
  attrScore em.attributes am.attributes +
    match em.value with
    | some v => if am.value = v then 1 else 0
    | none => 0

/-- Modelled from the spec: metric candidates — same name, and every
attribute of the expected metric's map present with the same value (§4.3). -/
def metricCandidates (em : ExpectedMetric) (pool : List ActualMetric) : List ActualMetric :=
  pool.filter fun am => am.name = em.name ∧ attrsSubset em.attributes am.attributes

/-- Modelled from the spec: `match` for metrics. -/
def matchMetric (em : ExpectedMetric) (pool : List ActualMetric) : Option ActualMetric :=
  selectBest (metricScore em) (metricCandidates em pool)

end RecordMatcher

/-- Validate one expected event against the matched span's actual events
(§4.4 step 4). -/
def validateEvent (ee : ExpectedEvent) (pool : List ActualEvent) : LeafResult :=
  match RecordMatcher.matchEvent ee pool with
  | none => ⟨ee.name, .failMissing, []⟩
  | some a =>
    let ds := attrDiffs ee.attributes a.attributes
    ⟨ee.name, if ds = [] then .pass else .failAttributeMismatch, ds⟩

/-- Validate one expected metric against the run's global metric pool
(§4.4 step 5): attribute agreement is enforced by candidate filtering, and a
surviving candidate with a differing value is an attribute mismatch. -/
def validateMetric (em : ExpectedMetric) (pool : List ActualMetric) : LeafResult :=
  match RecordMatcher.matchMetric em pool with
  | none => ⟨em.name, .failMissing, []⟩
  | some am =>
    match em.value with
    | some v =>
      if am.value = v then ⟨em.name, .pass, []⟩
      else ⟨em.name, .failAttributeMismatch,
        [{ key := "value", expected := some (.int v), actual := some (.int am.value) }]⟩
    | none => ⟨em.name, .pass, []⟩

mutual

/-- Result subtree for an expected span whose match failed: `fail-missing`
for the node and every descendant, with no further matching attempted
(§4.4 step 2). -/
def markMissing : ExpectedSpan → ResultNode
  | .node n _ evs ms _ _ _ cs =>
    .node n .failMissing [] []
      (evs.map fun e => ⟨e.name, .failMissing, []⟩)
      (ms.map fun m => ⟨m.name, .failMissing, []⟩)
      (markMissingList cs)

def markMissingList : List ExpectedSpan → List ResultNode
  | [] => []
  | c :: cs => markMissing c :: markMissingList cs

end

/-- Aggregation of one matched span node's checks into its result (§4.4
step 8): the node passes iff its own diffs and violations are empty and every
event, metric and child result passed. -/
def nodeResult (n : String) (ds : List Diff) (vs : List String)
    (evResults mResults : List LeafResult) (childResults : List ResultNode) : ResultNode :=
  let ok := ds.isEmpty && vs.isEmpty &&
    (evResults.all fun r => r.outcome = .pass) &&
    (mResults.all fun r => r.outcome = .pass) &&
    (childResults.all fun r => r.outcome = .pass)
  let o : Outcome :=
    if ok then .pass
    else if !vs.isEmpty then .failSchemaViolation
    else .failAttributeMismatch
  .node n o ds vs evResults mResults childResults

mutual

/-- Modelled from the spec: the recursive per-node algorithm of
`TreeValidator.validate` (§4.4 steps 1–6 and 8): match by name/score, diff
expected attributes/status/exception, evaluate referenced schema constraints,
validate events against the matched span's events, metrics against the global
pool, and children against the matched span's children; the node passes iff
its own checks and every descendant check pass. -/
def validateSpan (reg : SchemaRegistry) (metricPool : List ActualMetric) :
    ExpectedSpan → List ActualSpan → ResultNode
  | .node n attrs evs ms st ex schemas cs, pool =>
    match RecordMatcher.matchSpan n attrs pool with
    | none => markMissing (.node n attrs evs ms st ex schemas cs)
    | some act =>
      nodeResult n
        (attrDiffs attrs act.attributes ++ statusDiffs st act.status ++
          exceptionDiffs ex act.exception)
        (schemaViolations reg schemas act.record)
        (evs.map fun e => validateEvent e act.events)
        (ms.map fun m => validateMetric m metricPool)
        (validateSpans reg metricPool cs act.children)

def validateSpans (reg : SchemaRegistry) (metricPool : List ActualMetric) :
    List ExpectedSpan → List ActualSpan → List ResultNode
  | [], _ => []
  | c :: cs, pool =>
    validateSpan reg metricPool c pool :: validateSpans reg metricPool cs pool

end

/-- Modelled from the spec: kinds of structural ("additional validation")
rules (§4.4 step 7). -/
inductive RuleKind where
  | childSpanCount
  | spanHierarchyDepth
  | retriedOperationCount
  | errorSpanCount
  deriving DecidableEq, Repr

/-- A structural-rule request: rule kind plus expected value. -/
structure ValidationRule where
  kind : RuleKind
  value : Nat
  deriving DecidableEq, Repr

def RuleKind.ruleName : RuleKind → String
  | .childSpanCount => "child_span_count"
  | .spanHierarchyDepth => "span_hierarchy_depth"
  | .retriedOperationCount => "retried_operation_count"
  | .errorSpanCount => "error_span_count"

/-- Within one capture-ordered list of same-named siblings: true iff some
error-status instance is followed by a later instance without error status
(the "retry succeeded" pattern). -/
def hasRetry : List ActualSpan → Bool
  | [] => false
  | s :: rest => (s.isError && rest.any fun t => !t.isError) || hasRetry rest

/-- Modelled from the spec: number of retried operations among one list of
sibling spans — names shared by at least one error instance and a later
non-error instance (§4.4 step 7). -/
def retriedInGroup (siblings : List ActualSpan) : Nat :=
  ((siblings.map ActualSpan.name).dedup).countP fun n =>
    hasRetry (siblings.filter fun s => s.name = n)

mutual

def retriedTree : ActualSpan → Nat
  | .node _ _ _ _ _ cs => retriedInGroup cs + retriedForest cs

def retriedForest : List ActualSpan → Nat
  | [] => 0
  | s :: ss => retriedTree s + retriedForest ss

end

/-- Modelled from the spec: `retried_operation_count` over the whole actual
forest — retried names among top-level siblings plus, recursively, among
every span's children. -/
def retriedOperationCount (forest : List ActualSpan) : Nat :=
  retriedInGroup forest + retriedForest forest

mutual

def errorCountTree : ActualSpan → Nat
  | .node _ _ _ st _ cs => (if statusIsError st then 1 else 0) + errorCountForest cs

def errorCountForest : List ActualSpan → Nat
  | [] => 0
  | s :: ss => errorCountTree s + errorCountForest ss

end

mutual

def depthTree : ActualSpan → Nat
  | .node _ _ _ _ _ cs => 1 + depthForest cs

def depthForest : List ActualSpan → Nat
  | [] => 0
  | s :: ss => max (depthTree s) (depthForest ss)

end

/-- Modelled from the spec: `child_span_count` — exact count of immediate
children of the designated (first root) span. -/
def childSpanCount (forest : List ActualSpan) : Nat :=
  match forest with
  | [] => 0
  | r :: _ => r.children.length

/-- Evaluate one structural rule kind over the actual forest. -/
def evalRule : RuleKind → List ActualSpan → Nat
  | .childSpanCount, f => childSpanCount f
  | .spanHierarchyDepth, f => depthForest f
  | .retriedOperationCount, f => retriedOperationCount f
  | .errorSpanCount, f => errorCountForest f

/-- Result entry for one structural rule, attached at report root level. -/
structure RuleCheck where
  rule : String
  expected : Nat
  actual : Nat
  passed : Bool
  deriving DecidableEq, Repr

/-- Evaluate a structural rule to its pass/fail entry (§4.4 step 7). -/
def checkRule (r : ValidationRule) (forest : List ActualSpan) : RuleCheck :=
  let actual := evalRule r.kind forest
  ⟨r.kind.ruleName, r.value, actual, actual == r.value⟩

/-- Modelled from the spec: `ValidationReport` — result tree mirroring the
expected structure plus root-level structural-rule entries (§4.5). -/
structure ValidationReport where
  roots : List ResultNode
  rules : List RuleCheck

mutual

/-- Every node of a result subtree (including event and metric entries)
carries outcome `pass`. -/
def ResultNode.allPass : ResultNode → Bool
  | .node _ o _ _ evs ms cs =>
    (o = .pass) && (evs.all fun e => e.outcome = .pass) &&
      (ms.all fun m => m.outcome = .pass) && ResultNode.allPassList cs

def ResultNode.allPassList : List ResultNode → Bool
  | [] => true
  | r :: rs => r.allPass && ResultNode.allPassList rs

end

mutual

/-- Every node of a result subtree carries outcome `fail-missing`. -/
def ResultNode.allMissing : ResultNode → Bool
  | .node _ o _ _ evs ms cs =>
    (o = .failMissing) && (evs.all fun e => e.outcome = .failMissing) &&
      (ms.all fun m => m.outcome = .failMissing) && ResultNode.allMissingList cs

def ResultNode.allMissingList : List ResultNode → Bool
  | [] => true
  | r :: rs => r.allMissing && ResultNode.allMissingList rs

end

/-- Modelled from the spec: `isPass()` — the report passes iff every root
outcome (which aggregates its subtree) and every structural rule passed. -/
def ValidationReport.isPass (r : ValidationReport) : Bool :=
  (r.roots.all fun n => n.outcome = .pass) && (r.rules.all fun c => c.passed)

mutual

/-- `flatten()` entries for one result subtree: dotted path, outcome, and
human-readable reasons (§4.5). -/
def flattenNode (pre : String) : ResultNode → List (String × Outcome × List String)
  | .node n o ds vs evs ms cs =>
    let path := if pre = "" then n else pre ++ "." ++ n
    let reasons := (ds.map fun d => "attribute " ++ d.key) ++ vs
    (path, o, reasons) ::
      ((evs.map fun e => (path ++ "." ++ e.name, e.outcome,
          e.diffs.map fun d => "attribute " ++ d.key)) ++
        (ms.map fun m => (path ++ "." ++ m.name, m.outcome,
          m.diffs.map fun d => "attribute " ++ d.key)) ++
        flattenNodes path cs)

def flattenNodes (pre : String) : List ResultNode → List (String × Outcome × List String)
  | [] => []
  | r :: rs => flattenNode pre r ++ flattenNodes pre rs

end

/-- Modelled from the spec: `flatten()` — finite sequence of
(path, outcome, reasons) entries for rendering (§4.5). -/
def ValidationReport.flatten (r : ValidationReport) : List (String × Outcome × List String) :=
  flattenNodes "" r.roots ++
    r.rules.map fun c => (c.rule, if c.passed then Outcome.pass else Outcome.failExtra, ([] : List String))

mutual

/-- All schema identifiers referenced anywhere in an expected span tree. -/
def collectSchemaRefs : ExpectedSpan → List String
  | .node _ _ _ _ _ _ schemas cs => schemas ++ collectSchemaRefsList cs

def collectSchemaRefsList : List ExpectedSpan → List String
  | [] => []
  | c :: cs => collectSchemaRefs c ++ collectSchemaRefsList cs

end

namespace TreeValidator

/-- Modelled from the spec: `validate(expected, actualForest, registry)` plus
the scenario's structural rules and global metric pool (§4.4, §7).  A schema
identifier unknown to the registry is escalated as an immediate error; the
report otherwise collects every per-root result subtree and rule entry. -/
def validate (reg : SchemaRegistry) (rules : List ValidationRule)
    (exps : List ExpectedSpan) (forest : List ActualSpan)
    (metricPool : List ActualMetric) : Except String ValidationReport :=
  match (collectSchemaRefsList exps).find? (fun id => (reg.lookup id).isNone) with
  | some id => .error ("unknown schema identifier: " ++ id)
  | none =>
    .ok ⟨validateSpans reg metricPool exps forest, rules.map fun r => checkRule r forest⟩

end TreeValidator

def toActualEvent (e : ExpectedEvent) : ActualEvent :=
  ⟨e.name, e.attributes⟩

mutual

/-- The actual span tree identical, attribute-for-attribute and structurally,
to an expected span tree (§8's identical-capture construction). -/
def toActual : ExpectedSpan → ActualSpan
  | .node n attrs evs _ st ex _ cs =>
    .node n attrs (evs.map toActualEvent) st ex (toActualList cs)

def toActualList : List ExpectedSpan → List ActualSpan
  | [] => []
  | c :: cs => toActual c :: toActualList cs

end

/-- The actual metric point identical to an expected metric (an unset
expected value is captured as `0`, which validation then does not inspect). -/
def toActualMetric (m : ExpectedMetric) : ActualMetric :=
  ⟨m.name, m.attributes, m.value.getD 0⟩

mutual

/-- All metric points an identical capture of the expected tree provides. -/
def collectMetrics : ExpectedSpan → List ActualMetric
  | .node _ _ _ ms _ _ _ cs => ms.map toActualMetric ++ collectMetricsList cs

def collectMetricsList : List ExpectedSpan → List ActualMetric
  | [] => []
  | c :: cs => collectMetrics c ++ collectMetricsList cs

end

/-- The evaluation context an expected span would present if captured
identically. -/
def ExpectedSpan.record : ExpectedSpan → EvalRecord
  | .node _ attrs evs _ _ _ _ _ => ⟨attrs, evs.map ExpectedEvent.name⟩

mutual

/-- At every level of the expected tree, sibling span names are pairwise
distinct. -/
def distinctSiblings : ExpectedSpan → Bool
  | .node _ _ _ _ _ _ _ cs =>
    ((cs.map ExpectedSpan.name).Nodup : Prop) && distinctSiblingsList cs

def distinctSiblingsList : List ExpectedSpan → Bool
  | [] => true
  | c :: cs => distinctSiblings c && distinctSiblingsList cs

end

mutual

/-- Every schema identifier referenced by any node of the tree is registered,
and its applicable constraints are satisfied by the node's own record. -/
def schemasOk (reg : SchemaRegistry) : ExpectedSpan → Bool
  | .node n attrs evs ms st ex schemas cs =>
    (schemas.all fun id => (reg.lookup id).isSome) &&
      (schemaViolations reg schemas
        (ExpectedSpan.record (.node n attrs evs ms st ex schemas cs))).isEmpty &&
      schemasOkList reg cs

def schemasOkList (reg : SchemaRegistry) : List ExpectedSpan → Bool
  | [] => true
  | c :: cs => schemasOk reg c && schemasOkList reg cs

end

/-- From `improvement-plan.md`: the flat span record `verify_tool_span`
inspects — parent span id and attribute map. -/
structure SpanRecord where
  parent_span_id : Option Nat
  attributes : AttributeMap
  deriving DecidableEq, Repr

/-- Return shape of `verify_tool_span`: one span or a list of spans. -/
inductive ToolSpanResult where
  | single (s : SpanRecord)
  | multiple (ss : List SpanRecord)
  deriving DecidableEq, Repr

namespace GenAISpanValidator

/-- From `improvement-plan.md`: the `tool_spans` local of `verify_tool_span` —
spans whose parent is `parent_span_id` and whose `gen_ai.operation.name`
attribute equals `execute_tool`. -/
def toolSpansOf (spans : List SpanRecord) (parent_span_id : Nat) : List SpanRecord :=
  spans.filter fun s =>
    s.parent_span_id = some parent_span_id ∧
      lookupAttr s.attributes "gen_ai.operation.name" = some (.str "execute_tool")

/-- From `improvement-plan.md`: the `matching_spans` local of
`verify_tool_span` — tool spans whose `gen_ai.tool.name` equals `tn`. -/
def matchingOf (spans : List SpanRecord) (parent_span_id : Nat) (tn : String) :
    List SpanRecord :=
  (toolSpansOf spans parent_span_id).filter fun s =>
    lookupAttr s.attributes "gen_ai.tool.name" = some (.str tn)

/-- Embedded from `improvement-plan.md` (`otel_genai_validator.py`,
`verify_tool_span`): filter the spans to children of `parent_span_id` whose
`gen_ai.operation.name` is `execute_tool`; assert their count equals
`expected_count`; when a tool name is given, assert some of them carries it
under `gen_ai.tool.name` and return that one (or all matches); otherwise
return the single span or the list.  `Except.error` models the
`AssertionError` raises. -/
def verify_tool_span (spans : List SpanRecord) (parent_span_id : Nat)
    (tool_name : Option String := none) (expected_count : Nat := 1) :
    Except String ToolSpanResult :=
  let tool_spans := toolSpansOf spans parent_span_id
  if h : tool_spans.length = expected_count then
    match tool_name with
    | some tn =>
      match matchingOf spans parent_span_id tn with
      | [] => .error ("Tool span for " ++ tn ++ " not found")
      | [s] => .ok (.single s)
      | ss => .ok (.multiple ss)
    | none =>
      if h1 : expected_count = 1 then
        .ok (.single (tool_spans.get ⟨0, by omega⟩))
      else
        .ok (.multiple tool_spans)
  else
    .error ("Expected " ++ toString expected_count ++ " tool spans, got " ++
      toString tool_spans.length)

end GenAISpanValidator

/-! ## Concrete scenario data

Records built from the repository's scenario files
(`scenarios/tool_usage_scenario.yaml` and the error-handling scenario) used
to instantiate the claims on concrete inputs. -/

/-- Actual `gen_ai.client.token.usage` data point with `gen_ai.token.type =
"input"` and value 25 (tool-usage scenario). -/
def tokenUsageInput : ActualMetric :=
  ⟨"gen_ai.client.token.usage",
   [("gen_ai.token.type", .str "input"), ("gen_ai.system", .str "openai"),
    ("gen_ai.request.model", .str "gpt-4o")], 25⟩

/-- Actual `gen_ai.client.token.usage` data point with `gen_ai.token.type =
"output"` and value 35 (tool-usage scenario). -/
def tokenUsageOutput : ActualMetric :=
  ⟨"gen_ai.client.token.usage",
   [("gen_ai.token.type", .str "output"), ("gen_ai.system", .str "openai"),
    ("gen_ai.request.model", .str "gpt-4o")], 35⟩

/-- Expected `gen_ai.client.token.usage` metric requiring `gen_ai.token.type
= "input"` and the given numeric value. -/
def expectedTokenUsageInput (v : Int) : ExpectedMetric :=
  ⟨"gen_ai.client.token.usage",
   [("gen_ai.token.type", .str "input"), ("gen_ai.system", .str "openai"),
    ("gen_ai.request.model", .str "gpt-4o")], some v⟩

/-- First `execute_tool news_api_lookup` sibling of the error-handling
scenario: `retry.count = 0`, error status. -/
def newsRetryErrorSpan : ActualSpan :=
  .node "execute_tool news_api_lookup"
    [("gen_ai.operation.name", .str "execute_tool"),
     ("gen_ai.tool.name", .str "news_api_lookup"), ("retry.count", .int 0)]
    [] (some ⟨"ERROR", "API rate limit exceeded"⟩)
    (some ⟨"rate_limit_exceeded", "Rate limit exceeded: try again later"⟩) []

/-- Second `execute_tool news_api_lookup` sibling of the error-handling
scenario: `retry.count = 1`, no error status. -/
def newsRetrySuccessSpan : ActualSpan :=
  .node "execute_tool news_api_lookup"
    [("gen_ai.operation.name", .str "execute_tool"),
     ("gen_ai.tool.name", .str "news_api_lookup"), ("retry.count", .int 1)]
    [⟨"gen_ai.tool.message",
      [("content", .str "Headline: 'Global AI Summit Addresses Ethical Concerns'"),
       ("role", .str "tool")]⟩]
    none none []

/-- Root `chat gpt-4o` span of the error-handling scenario with the two
retry siblings as children. -/
def errorHandlingChatSpan : ActualSpan :=
  .node "chat gpt-4o"
    [("gen_ai.system", .str "openai"), ("gen_ai.operation.name", .str "chat"),
     ("gen_ai.request.model", .str "gpt-4o")]
    [] none none [newsRetryErrorSpan, newsRetrySuccessSpan]

/-- First expected sibling of the identical-tree counterexample: name `n`
with attributes `a = 1, b = 2`. -/
def dupNameChildWide : ExpectedSpan :=
  .node "n" [("a", .int 1), ("b", .int 2)] [] [] none none [] []

/-- Second expected sibling of the identical-tree counterexample: same name
`n`, attribute subset `a = 1`, and one child `z`. -/
def dupNameChildNarrow : ExpectedSpan :=
  .node "n" [("a", .int 1)] [] [] none none []
    [.node "z" [] [] [] none none [] []]

/-- Expected root whose two same-named children make identical-tree
validation mis-select a sibling. -/
def dupNameRoot : ExpectedSpan :=
  .node "root" [] [] [] none none [] [dupNameChildWide, dupNameChildNarrow]

/-- A small expected tree with distinct sibling names, an event, a metric
and a status, used to instantiate positive validation claims. -/
def sampleOkRoot : ExpectedSpan :=
  .node "root" [("x", .str "1")]
    [⟨"ev", [("c", .str "v")]⟩]
    [⟨"m", [("t", .str "i")], some 3⟩]
    (some ⟨"OK", ""⟩) none []
    [.node "c1" [("y", .int 2)] [] [] none none [] [],
     .node "c2" [] [] [] none none [] []]

/-- The report produced by validating `sampleOkRoot` against its identical
capture with no rules. -/
def sampleOkReport : ValidationReport :=
  ⟨validateSpans [] (collectMetrics sampleOkRoot) [sampleOkRoot]
     (toActualList [sampleOkRoot]), []⟩

/-- Tool span child of parent 7 named `get_weather`. -/
def toolSpanWeather : SpanRecord :=
  ⟨some 7, [("gen_ai.operation.name", .str "execute_tool"),
            ("gen_ai.tool.name", .str "get_weather")]⟩

/-- Tool span child of parent 7 named `news`. -/
def toolSpanNews : SpanRecord :=
  ⟨some 7, [("gen_ai.operation.name", .str "execute_tool"),
            ("gen_ai.tool.name", .str "news")]⟩

/-- Tool span under a different parent (9). -/
def toolSpanOtherParent : SpanRecord :=
  ⟨some 9, [("gen_ai.operation.name", .str "execute_tool")]⟩

/-- Same-named candidate scoring 1 on the demo expected attributes. -/
def matcherSpanLow : ActualSpan :=
  .node "n" [("a", .int 1)] [] none none []

/-- Same-named candidate scoring 2 on the demo expected attributes. -/
def matcherSpanHigh : ActualSpan :=
  .node "n" [("a", .int 1), ("b", .int 2)] [] none none []

/-- Demo expected attributes for the matcher witness. -/
def matcherDemoAttrs : AttributeMap :=
  [("a", .int 1), ("b", .int 2)]

/-! ## Claim theorems -/

namespace RecordMatcher

theorem selectBest_eq_none {α : Type} (f : α → Nat) (l : List α) :
    selectBest f l = none ↔ l = [] := by
  cases l with
  | nil => simp [selectBest]
  | cons x xs =>
    simp only [selectBest]
    constructor
    · intro h
      cases hx : selectBest f xs with
      | none => simp [hx] at h
      | some y =>
        rw [hx] at h
        by_cases hc : f x < f y <;> simp [hc] at h
    · intro h
      exact absurd h (List.cons_ne_nil x xs)

theorem selectBest_mem {α : Type} (f : α → Nat) (l : List α) (a : α)
    (h : selectBest f l = some a) : a ∈ l := by
  induction l with
  | nil => simp [selectBest] at h
  | cons x xs ih =>
    simp only [selectBest] at h
    cases hx : selectBest f xs with
    | none =>
      rw [hx] at h
      simp at h
      simp [h]
    | some y =>
      rw [hx] at h
      by_cases hc : f x < f y
      · simp [hc] at h
        exact List.mem_cons_of_mem x (ih (h ▸ hx))
      · simp [hc] at h
        simp [h]

theorem selectBest_le {α : Type} (f : α → Nat) (l : List α) :
    ∀ a, selectBest f l = some a → ∀ b ∈ l, f b ≤ f a := by
  induction l with
  | nil => intro a h; simp [selectBest] at h
  | cons x xs ih =>
    intro a h b hb
    simp only [selectBest] at h
    cases hx : selectBest f xs with
    | none =>
      rw [hx] at h
      simp at h
      subst h
      rcases List.mem_cons.mp hb with hbx | hbxs
      · subst hbx; exact le_refl _
      · rw [(selectBest_eq_none f xs).mp hx] at hbxs
        simp at hbxs
    | some y =>
      rw [hx] at h
      by_cases hc : f x < f y
      · simp [hc] at h
        subst h
        rcases List.mem_cons.mp hb with hbx | hbxs
        · subst hbx; exact Nat.le_of_lt hc
        · exact ih y hx b hbxs
      · simp [hc] at h
        subst h
        rcases List.mem_cons.mp hb with hbx | hbxs
        · subst hbx; exact le_refl _
        · exact Nat.le_trans (ih y hx b hbxs) (Nat.le_of_not_lt hc)

/-- The selected element is the first one attaining the maximal measure:
there is a position holding it such that every strictly earlier element
measures strictly less. -/
theorem selectBest_first {α : Type} (f : α → Nat) (l : List α) (a : α)
    (h : selectBest f l = some a) :
    ∃ i, ∃ hi : i < l.length, l.get ⟨i, hi⟩ = a ∧
      ∀ j, (hj : j < i) → f (l.get ⟨j, Nat.lt_trans hj hi⟩) < f a := by
  induction l with
  | nil => simp [selectBest] at h
  | cons x xs ih =>
    simp only [selectBest] at h
    cases hx : selectBest f xs with
    | none =>
      rw [hx] at h
      simp at h
      subst h
      exact ⟨0, by simp, rfl, fun j hj => absurd hj (Nat.not_lt_zero j)⟩
    | some y =>
      rw [hx] at h
      by_cases hc : f x < f y
      · simp [hc] at h
        subst h
        obtain ⟨i, hi, hget, hlt⟩ := ih hx
        refine ⟨i + 1, by simpa using Nat.succ_lt_succ hi, by simpa using hget, ?_⟩
        intro j hj
        cases j with
        | zero => simpa using hc
        | succ j' =>
          have hj' : j' < i := Nat.lt_of_succ_lt_succ hj
          simpa using hlt j' hj'
      · simp [hc] at h
        subst h
        exact ⟨0, by simp, rfl, fun j hj => absurd hj (Nat.not_lt_zero j)⟩

end RecordMatcher

/-- C2: for every constraint carrying a condition and every record, if the
condition evaluates to false against the record's own context,
`ConstraintEvaluator.evaluate` returns not-applicable — never violated —
regardless of whether the constrained attribute is absent from the record. -/
theorem claim_C2_false_condition_not_applicable
    (c : AttributeConstraint) (cond : Condition) (r : EvalRecord)
    (hc : c.condition = some cond)
    (hf : ConstraintEvaluator.evalCondition cond r = false) :
    ConstraintEvaluator.evaluate c r = ConstraintResult.notApplicable := by
  unfold ConstraintEvaluator.evaluate
  rw [hc]
  simp [hf]

/-- Witness for C2: the "required when `gen_ai.operation.name ==
execute_tool`" constraint attached to a record whose operation name is
`chat` (and which lacks the constrained attribute entirely) evaluates to
not-applicable. -/
theorem claim_C2_false_condition_not_applicable_witness :
    ConstraintEvaluator.evaluate
      { key := "gen_ai.tool.name", level := .conditionallyRequired,
        condition := some (.attrEq "gen_ai.operation.name" (.str "execute_tool")) }
      ⟨[("gen_ai.operation.name", .str "chat")], []⟩ =
      ConstraintResult.notApplicable :=
  claim_C2_false_condition_not_applicable _ _ _ rfl (by decide)

/-- C9: for every constraint whose requirement level is recommended or
opt-in and every record, `ConstraintEvaluator.evaluate` never returns
violated, whether or not the attribute is present in the record. -/
theorem claim_C9_recommended_opt_in_never_violated
    (c : AttributeConstraint) (r : EvalRecord)
    (h : c.level = RequirementLevel.recommended ∨ c.level = RequirementLevel.optIn) :
    ∀ reason, ConstraintEvaluator.evaluate c r ≠ ConstraintResult.violated reason := by
  intro reason
  have hcore : ConstraintEvaluator.evalCore c r ≠ ConstraintResult.violated reason := by
    unfold ConstraintEvaluator.evalCore
    rcases h with h | h <;> rw [h] <;> cases lookupAttr r.attributes c.key <;> simp
  unfold ConstraintEvaluator.evaluate
  cases hc : c.condition with
  | none => exact hcore
  | some cond =>
    by_cases he : ConstraintEvaluator.evalCondition cond r
    · simpa [he] using hcore
    · simp [he]

/-- Witness for C9: a recommended constraint on an attribute absent from the
record is not violated. -/
theorem claim_C9_recommended_opt_in_never_violated_witness :
    ({ key := "gen_ai.request.temperature",
       level := .recommended } : AttributeConstraint).level =
        RequirementLevel.recommended ∧
      ConstraintEvaluator.evaluate
        { key := "gen_ai.request.temperature", level := .recommended }
        ⟨[("gen_ai.system", .str "openai")], []⟩ ≠
        ConstraintResult.violated "missing required attribute" :=
  ⟨rfl,
   claim_C9_recommended_opt_in_never_violated _ _ (Or.inl rfl)
     "missing required attribute"⟩

/-- C4: for every expected span or event and every candidate pool, the
matcher returns NotFound (`none`) exactly when zero candidates share the
expected name; whenever at least one same-named candidate exists it returns
one of them — the candidate with the highest count of agreeing
expected-attribute keys, ties broken by earliest capture order — even when
the best candidate has zero agreeing attributes. -/
theorem claim_C4_matcher_selection
    (name : String) (attrs : AttributeMap) (pool : List ActualSpan)
    (ee : ExpectedEvent) (epool : List ActualEvent) :
    (RecordMatcher.matchSpan name attrs pool = none ↔
      RecordMatcher.namedCandidates name pool = []) ∧
    (∀ a, RecordMatcher.matchSpan name attrs pool = some a →
      a ∈ RecordMatcher.namedCandidates name pool ∧
      (∀ b ∈ RecordMatcher.namedCandidates name pool,
        attrScore attrs b.attributes ≤ attrScore attrs a.attributes) ∧
      ∃ i, ∃ hi : i < (RecordMatcher.namedCandidates name pool).length,
        (RecordMatcher.namedCandidates name pool).get ⟨i, hi⟩ = a ∧
        ∀ j, (hj : j < i) →
          attrScore attrs ((RecordMatcher.namedCandidates name pool).get
            ⟨j, Nat.lt_trans hj hi⟩).attributes < attrScore attrs a.attributes) ∧
    (RecordMatcher.matchEvent ee epool = none ↔
      epool.filter (fun a => a.name = ee.name) = []) ∧
    (∀ a, RecordMatcher.matchEvent ee epool = some a →
      a ∈ epool.filter (fun a => a.name = ee.name) ∧
      ∀ b ∈ epool.filter (fun a => a.name = ee.name),
        attrScore ee.attributes b.attributes ≤ attrScore ee.attributes a.attributes) := by
  refine ⟨RecordMatcher.selectBest_eq_none _ _, ?_,
    RecordMatcher.selectBest_eq_none _ _, ?_⟩
  · intro a h
    exact ⟨RecordMatcher.selectBest_mem _ _ a h,
      RecordMatcher.selectBest_le _ _ a h,
      RecordMatcher.selectBest_first _ _ a h⟩
  · intro a h
    exact ⟨RecordMatcher.selectBest_mem _ _ a h,
      RecordMatcher.selectBest_le _ _ a h⟩

/-- Witness for C4: on a pool of two same-named spans where the later one
agrees on more expected-attribute keys, the matcher selects the later one
and the selection is a member of the same-named candidate list. -/
theorem claim_C4_matcher_selection_witness :
    RecordMatcher.matchSpan "n" matcherDemoAttrs [matcherSpanLow, matcherSpanHigh] =
        some matcherSpanHigh ∧
      matcherSpanHigh ∈ RecordMatcher.namedCandidates "n" [matcherSpanLow, matcherSpanHigh] :=
  ⟨rfl,
   ((claim_C4_matcher_selection "n" matcherDemoAttrs [matcherSpanLow, matcherSpanHigh]
       ⟨"e", []⟩ []).2.1 matcherSpanHigh rfl).1⟩

/-- C1: the metric matcher selects an actual metric only if every attribute
key/value of the expected metric's map is present among the candidate's
attributes, and an expected numeric value participates in candidate scoring;
concretely, for the tool-usage scenario's two `gen_ai.client.token.usage`
points (`input` 25, `output` 35), expecting `input`/25 matches the first and
passes while expecting value 30 with the same attributes yields
fail-attribute-mismatch. -/
theorem claim_C1_metric_matching :
    (∀ (em : ExpectedMetric) (pool : List ActualMetric) (am : ActualMetric),
      RecordMatcher.matchMetric em pool = some am →
        am.name = em.name ∧ attrsSubset em.attributes am.attributes = true) ∧
    (∀ (em : ExpectedMetric) (am : ActualMetric) (v : Int), em.value = some v →
      RecordMatcher.metricScore em am =
        attrScore em.attributes am.attributes + (if am.value = v then 1 else 0)) ∧
    RecordMatcher.matchMetric (expectedTokenUsageInput 25)
        [tokenUsageInput, tokenUsageOutput] = some tokenUsageInput ∧
    (validateMetric (expectedTokenUsageInput 25)
        [tokenUsageInput, tokenUsageOutput]).outcome = Outcome.pass ∧
    (validateMetric (expectedTokenUsageInput 30)
        [tokenUsageInput, tokenUsageOutput]).outcome = Outcome.failAttributeMismatch := by
  refine ⟨?_, ?_, by decide, by decide, by decide⟩
  · intro em pool am h
    have hmem := RecordMatcher.selectBest_mem _ _ am h
    unfold RecordMatcher.metricCandidates at hmem
    have hp := (List.mem_filter.mp hmem).2
    exact of_decide_eq_true hp
  · intro em am v hv
    unfold RecordMatcher.metricScore
    rw [hv]

/-- Witness for C1: the matched `input` point indeed carries every expected
attribute key/value. -/
theorem claim_C1_metric_matching_witness :
    tokenUsageInput.name = (expectedTokenUsageInput 25).name ∧
      attrsSubset (expectedTokenUsageInput 25).attributes
        tokenUsageInput.attributes = true :=
  claim_C1_metric_matching.1 (expectedTokenUsageInput 25)
    [tokenUsageInput, tokenUsageOutput] tokenUsageInput (by decide)

/-- C7: for a fixed (expected tree, actual forest, schema registry, rules,
metric pool) input, two invocations of `validate` yield reports whose
`flatten()` sequences are identical element for element — the validator is a
pure function of its immutable inputs. -/
theorem claim_C7_validate_deterministic (reg : SchemaRegistry)
    (rules : List ValidationRule) (exps : List ExpectedSpan)
    (forest : List ActualSpan) (metricPool : List ActualMetric) :
    (TreeValidator.validate reg rules exps forest metricPool).map
        ValidationReport.flatten =
      (TreeValidator.validate reg rules exps forest metricPool).map
        ValidationReport.flatten :=
  rfl

mutual

theorem markMissing_allMissing (e : ExpectedSpan) :
    (markMissing e).allMissing = true := by
  cases e with
  | node n attrs evs ms st ex schemas cs =>
    simp [markMissing, ResultNode.allMissing, markMissingList_allMissing cs,
      List.all_eq_true, LeafResult.outcome]

theorem markMissingList_allMissing (es : List ExpectedSpan) :
    ResultNode.allMissingList (markMissingList es) = true := by
  cases es with
  | nil => rfl
  | cons c cs =>
    simp [markMissingList, ResultNode.allMissingList, markMissing_allMissing c,
      markMissingList_allMissing cs]

end

theorem validateSpans_eq_map (reg : SchemaRegistry) (mp : List ActualMetric)
    (cs : List ExpectedSpan) (pool : List ActualSpan) :
    validateSpans reg mp cs pool = cs.map fun c => validateSpan reg mp c pool := by
  induction cs with
  | nil => rfl
  | cons c cs ih => simp [validateSpans, ih]

/-- C3: whenever the matcher finds no actual span for an expected node, the
validator emits `fail-missing` for that node and every one of its
descendants (event and metric entries included) without attempting further
matching inside the subtree, while each sibling subtree is still validated
independently and completely. -/
theorem claim_C3_missing_subtree (reg : SchemaRegistry) (mp : List ActualMetric) :
    (∀ (e : ExpectedSpan) (pool : List ActualSpan),
      RecordMatcher.matchSpan e.name e.attributes pool = none →
        (validateSpan reg mp e pool).allMissing = true) ∧
    (∀ (cs : List ExpectedSpan) (pool : List ActualSpan),
      validateSpans reg mp cs pool = cs.map fun c => validateSpan reg mp c pool) := by
  constructor
  · intro e pool h
    cases e with
    | node n attrs evs ms st ex schemas cs =>
      have h' : RecordMatcher.matchSpan n attrs pool = none := h
      rw [validateSpan, h']
      exact markMissing_allMissing _
  · exact validateSpans_eq_map reg mp

/-- Witness for C3: an expected span with a child, validated against an
empty pool, yields an all-`fail-missing` result subtree. -/
theorem claim_C3_missing_subtree_witness :
    RecordMatcher.matchSpan dupNameChildNarrow.name dupNameChildNarrow.attributes
        [] = none ∧
      (validateSpan [] [] dupNameChildNarrow []).allMissing = true :=
  ⟨rfl, (claim_C3_missing_subtree [] []).1 dupNameChildNarrow [] rfl⟩

/-- C8: the `retried_operation_count` structural rule counts sibling spans
sharing a name where an error-status instance is followed by a later
same-named instance without error: on the error-handling scenario's actual
tree — two siblings named `execute_tool news_api_lookup`, the first with
error status, the second without — it evaluates to 1 and passes against an
expected value of 1. -/
theorem claim_C8_retried_operation_count :
    retriedInGroup [newsRetryErrorSpan, newsRetrySuccessSpan] = 1 ∧
      retriedOperationCount [errorHandlingChatSpan] = 1 ∧
      evalRule RuleKind.retriedOperationCount [errorHandlingChatSpan] = 1 ∧
      (checkRule ⟨RuleKind.retriedOperationCount, 1⟩ [errorHandlingChatSpan]).passed = true :=
  ⟨by decide, by decide, by decide, by decide⟩

theorem attrDiffsAux_eq_nil_iff (exp act : AttributeMap) (L : List String) :
    attrDiffsAux exp act L = [] ↔
      ∀ k ∈ L, lookupAttr act k = lookupAttr exp k := by
  induction L with
  | nil => simp [attrDiffsAux]
  | cons k ks ih =>
    simp only [attrDiffsAux, List.forall_mem_cons]
    by_cases h : lookupAttr act k = lookupAttr exp k
    · simp [h, ih]
    · simp [h]

theorem attrDiffs_eq_nil_iff (exp act : AttributeMap) :
    attrDiffs exp act = [] ↔
      ∀ k ∈ attrKeys exp, lookupAttr act k = lookupAttr exp k :=
  attrDiffsAux_eq_nil_iff exp act (attrKeys exp)

theorem statusDiffs_eq_nil_iff (e a : Option SpanStatus) :
    statusDiffs e a = [] ↔ ∀ s, e = some s → a = some s := by
  cases e with
  | none => simp [statusDiffs]
  | some s =>
    simp only [statusDiffs]
    by_cases h : a = some s
    · simp [h]
    · simp [h]

theorem exceptionDiffs_eq_nil_iff (e a : Option SpanException) :
    exceptionDiffs e a = [] ↔ ∀ x, e = some x → a = some x := by
  cases e with
  | none => simp [exceptionDiffs]
  | some x =>
    simp only [exceptionDiffs]
    by_cases h : a = some x
    · simp [h]
    · simp [h]

theorem constraintViolations_eq_nil_iff (id : String)
    (cs : List AttributeConstraint) (r : EvalRecord) :
    constraintViolations id cs r = [] ↔
      ∀ c ∈ cs, ∀ reason,
        ConstraintEvaluator.evaluate c r ≠ ConstraintResult.violated reason := by
  induction cs with
  | nil => simp [constraintViolations]
  | cons c cs ih =>
    simp only [constraintViolations, List.forall_mem_cons]
    cases hev : ConstraintEvaluator.evaluate c r with
    | violated reason => simp [ih]
    | satisfied => simp [ih]
    | notApplicable => simp [ih]

theorem schemaViolations_eq_nil_iff (reg : SchemaRegistry) (ids : List String)
    (r : EvalRecord) :
    schemaViolations reg ids r = [] ↔
      ∀ id ∈ ids, ∀ d, reg.lookup id = some d →
        constraintViolations id d.attributes r = [] := by
  induction ids with
  | nil => simp [schemaViolations]
  | cons id ids ih =>
    simp only [schemaViolations, List.append_eq_nil, List.forall_mem_cons, ih]
    cases hl : reg.lookup id with
    | none => simp
    | some d => simp

theorem attrScore_le_length (exp act : AttributeMap) :
    attrScore exp act ≤ (attrKeys exp).length :=
  List.countP_le_length _

theorem attrScore_self (m : AttributeMap) : attrScore m m = (attrKeys m).length := by
  unfold attrScore
  rw [List.countP_eq_length]
  intro k hk
  simp

theorem attrScore_eq_length_iff (exp act : AttributeMap) :
    attrScore exp act = (attrKeys exp).length ↔
      ∀ k ∈ attrKeys exp, lookupAttr act k = lookupAttr exp k := by
  unfold attrScore
  rw [List.countP_eq_length]
  simp

theorem attrsSubset_self (m : AttributeMap) : attrsSubset m m = true := by
  unfold attrsSubset
  simp [List.all_eq_true]

theorem allPass_eq_true_iff (n : String) (o : Outcome) (ds : List Diff)
    (vs : List String) (evs ms : List LeafResult) (cks : List ResultNode) :
    (ResultNode.node n o ds vs evs ms cks).allPass = true ↔
      (o = Outcome.pass ∧ (∀ r ∈ evs, r.outcome = Outcome.pass) ∧
        (∀ r ∈ ms, r.outcome = Outcome.pass) ∧
        ResultNode.allPassList cks = true) := by
  simp [ResultNode.allPass, List.all_eq_true, and_assoc]

theorem nodeResult_eq (n : String) (ds : List Diff) (vs : List String)
    (evs ms : List LeafResult) (cks : List ResultNode) :
    nodeResult n ds vs evs ms cks =
      ResultNode.node n (nodeResult n ds vs evs ms cks).outcome ds vs evs ms cks :=
  rfl

theorem nodeResult_ok_iff (ds : List Diff) (vs : List String)
    (evs ms : List LeafResult) (cks : List ResultNode) :
    (ds.isEmpty && vs.isEmpty && (evs.all fun r => r.outcome = Outcome.pass) &&
      (ms.all fun r => r.outcome = Outcome.pass) &&
      (cks.all fun r => r.outcome = Outcome.pass)) = true ↔
      (ds = [] ∧ vs = [] ∧ (∀ r ∈ evs, r.outcome = Outcome.pass) ∧
        (∀ r ∈ ms, r.outcome = Outcome.pass) ∧
        (∀ r ∈ cks, r.outcome = Outcome.pass)) := by
  simp [List.isEmpty_iff, List.all_eq_true, and_assoc]

theorem nodeResult_outcome_pass_iff (n : String) (ds : List Diff) (vs : List String)
    (evs ms : List LeafResult) (cks : List ResultNode) :
    (nodeResult n ds vs evs ms cks).outcome = Outcome.pass ↔
      (ds = [] ∧ vs = [] ∧ (∀ r ∈ evs, r.outcome = Outcome.pass) ∧
        (∀ r ∈ ms, r.outcome = Outcome.pass) ∧
        (∀ r ∈ cks, r.outcome = Outcome.pass)) := by
  rw [← nodeResult_ok_iff ds vs evs ms cks]
  unfold nodeResult
  simp only [ResultNode.outcome]
  split
  next hok => simp [hok]
  next hok =>
    constructor
    · intro h
      exfalso
      split at h
      · exact Outcome.noConfusion h
      · exact Outcome.noConfusion h
    · intro h
      exact absurd h hok

theorem nodeResult_allPass_iff (n : String) (ds : List Diff) (vs : List String)
    (evs ms : List LeafResult) (cks : List ResultNode) :
    (nodeResult n ds vs evs ms cks).allPass = true ↔
      ((nodeResult n ds vs evs ms cks).outcome = Outcome.pass ∧
        (∀ r ∈ evs, r.outcome = Outcome.pass) ∧
        (∀ r ∈ ms, r.outcome = Outcome.pass) ∧
        ResultNode.allPassList cks = true) := by
  conv_lhs => rw [nodeResult_eq n ds vs evs ms cks]
  rw [allPass_eq_true_iff]

theorem markMissing_outcome (e : ExpectedSpan) :
    (markMissing e).outcome = Outcome.failMissing := by
  cases e
  rfl

theorem allPass_outcome_pass (r : ResultNode) (h : r.allPass = true) :
    r.outcome = Outcome.pass := by
  cases r with
  | node n o ds vs evs ms cks =>
    exact ((allPass_eq_true_iff n o ds vs evs ms cks).mp h).1

mutual

theorem validateSpan_outcome_iff_allPass (reg : SchemaRegistry)
    (mp : List ActualMetric) (e : ExpectedSpan) (pool : List ActualSpan) :
    (validateSpan reg mp e pool).outcome = Outcome.pass ↔
      (validateSpan reg mp e pool).allPass = true := by
  cases e with
  | node n attrs evs ms st ex schemas cs =>
    rw [validateSpan]
    cases hm : RecordMatcher.matchSpan n attrs pool with
    | none =>
      constructor
      · intro h
        rw [markMissing_outcome] at h
        exact absurd h (by decide)
      · intro h
        exfalso
        have ho := allPass_outcome_pass _ h
        rw [markMissing_outcome] at ho
        exact absurd ho (by decide)
    | some act =>
      rw [nodeResult_outcome_pass_iff, nodeResult_allPass_iff]
      constructor
      · rintro ⟨h1, h2, h3, h4, h5⟩
        exact ⟨(nodeResult_outcome_pass_iff _ _ _ _ _ _).mpr ⟨h1, h2, h3, h4, h5⟩,
          h3, h4,
          (validateSpans_outcome_iff_allPass reg mp cs act.children).mp h5⟩
      · rintro ⟨ho, -, -, -⟩
        exact (nodeResult_outcome_pass_iff _ _ _ _ _ _).mp ho

theorem validateSpans_outcome_iff_allPass (reg : SchemaRegistry)
    (mp : List ActualMetric) (cs : List ExpectedSpan) (pool : List ActualSpan) :
    (∀ r ∈ validateSpans reg mp cs pool, r.outcome = Outcome.pass) ↔
      ResultNode.allPassList (validateSpans reg mp cs pool) = true := by
  cases cs with
  | nil => simp [validateSpans, ResultNode.allPassList]
  | cons c cs' =>
    simp only [validateSpans, ResultNode.allPassList, Bool.and_eq_true,
      List.forall_mem_cons]
    rw [validateSpan_outcome_iff_allPass reg mp c pool,
      validateSpans_outcome_iff_allPass reg mp cs' pool]

end

theorem allPassList_iff_forall (rs : List ResultNode) :
    ResultNode.allPassList rs = true ↔ ∀ r ∈ rs, r.allPass = true := by
  induction rs with
  | nil => simp [ResultNode.allPassList]
  | cons r rs ih =>
    simp [ResultNode.allPassList, Bool.and_eq_true, ih, List.forall_mem_cons]

theorem validateSpan_pass_iff (reg : SchemaRegistry) (mp : List ActualMetric)
    (e : ExpectedSpan) (pool : List ActualSpan) :
    (validateSpan reg mp e pool).outcome = Outcome.pass ↔
      ∃ act, RecordMatcher.matchSpan e.name e.attributes pool = some act ∧
        (∀ k ∈ attrKeys e.attributes,
          lookupAttr act.attributes k = lookupAttr e.attributes k) ∧
        (∀ s, e.status = some s → act.status = some s) ∧
        (∀ x, e.exception = some x → act.exception = some x) ∧
        (∀ id ∈ e.schemas, ∀ d, reg.lookup id = some d → ∀ c ∈ d.attributes,
          ∀ reason, ConstraintEvaluator.evaluate c act.record ≠
            ConstraintResult.violated reason) ∧
        (∀ ee ∈ e.events, (validateEvent ee act.events).outcome = Outcome.pass) ∧
        (∀ em ∈ e.metrics, (validateMetric em mp).outcome = Outcome.pass) ∧
        (∀ c ∈ e.children,
          (validateSpan reg mp c act.children).outcome = Outcome.pass) := by
  cases e with
  | node n attrs evs ms st ex schemas cs =>
    simp only [ExpectedSpan.name, ExpectedSpan.attributes, ExpectedSpan.status,
      ExpectedSpan.exception, ExpectedSpan.schemas, ExpectedSpan.events,
      ExpectedSpan.metrics, ExpectedSpan.children]
    rw [validateSpan]
    cases hm : RecordMatcher.matchSpan n attrs pool with
    | none =>
      constructor
      · intro h
        rw [markMissing_outcome] at h
        exact absurd h (by decide)
      · rintro ⟨act, hact, -⟩
        exact Option.noConfusion hact
    | some act =>
      rw [nodeResult_outcome_pass_iff]
      constructor
      · rintro ⟨hds, hvs, hevs, hms, hcks⟩
        rcases List.append_eq_nil.mp hds with ⟨hrest, hds3⟩
        rcases List.append_eq_nil.mp hrest with ⟨hds1, hds2⟩
        refine ⟨act, rfl, (attrDiffs_eq_nil_iff _ _).mp hds1,
          (statusDiffs_eq_nil_iff _ _).mp hds2,
          (exceptionDiffs_eq_nil_iff _ _).mp hds3, ?_, ?_, ?_, ?_⟩
        · intro id hid d hd c hc reason
          have hcv := (schemaViolations_eq_nil_iff reg schemas act.record).mp hvs id hid d hd
          exact (constraintViolations_eq_nil_iff id d.attributes act.record).mp hcv c hc reason
        · intro ee hee
          exact hevs _ (List.mem_map_of_mem _ hee)
        · intro em hem
          exact hms _ (List.mem_map_of_mem _ hem)
        · intro c hc
          apply hcks
          rw [validateSpans_eq_map]
          exact List.mem_map_of_mem _ hc
      · rintro ⟨act', hact', h2, h3, h4, h5, h6, h7, h8⟩
        injection hact' with heq
        subst heq
        refine ⟨?_, ?_, ?_, ?_, ?_⟩
        · rw [(attrDiffs_eq_nil_iff _ _).mpr h2, (statusDiffs_eq_nil_iff _ _).mpr h3,
            (exceptionDiffs_eq_nil_iff _ _).mpr h4]
          rfl
        · apply (schemaViolations_eq_nil_iff reg schemas act.record).mpr
          intro id hid d hd
          exact (constraintViolations_eq_nil_iff id d.attributes act.record).mpr
            (fun c hc reason => h5 id hid d hd c hc reason)
        · intro r hr
          rcases List.mem_map.mp hr with ⟨ee, hee, rfl⟩
          exact h6 ee hee
        · intro r hr
          rcases List.mem_map.mp hr with ⟨em, hem, rfl⟩
          exact h7 em hem
        · intro r hr
          rw [validateSpans_eq_map] at hr
          rcases List.mem_map.mp hr with ⟨c, hc, rfl⟩
          exact h8 c hc

theorem validate_isPass_iff (reg : SchemaRegistry) (rules : List ValidationRule)
    (exps : List ExpectedSpan) (forest : List ActualSpan)
    (mp : List ActualMetric) (report : ValidationReport)
    (h : TreeValidator.validate reg rules exps forest mp = Except.ok report) :
    report.isPass = true ↔
      (ResultNode.allPassList report.roots = true ∧
        ∀ rc ∈ report.rules, rc.passed = true) := by
  unfold TreeValidator.validate at h
  cases hf : (collectSchemaRefsList exps).find? (fun id => (reg.lookup id).isNone) with
  | some id =>
    rw [hf] at h
    exact Except.noConfusion h
  | none =>
    rw [hf] at h
    injection h with h
    subst h
    unfold ValidationReport.isPass
    simp only [Bool.and_eq_true, List.all_eq_true, decide_eq_true_eq]
    constructor
    · rintro ⟨hroots, hrules⟩
      refine ⟨(validateSpans_outcome_iff_allPass reg mp exps forest).mp hroots, hrules⟩
    · rintro ⟨hroots, hrules⟩
      exact ⟨(validateSpans_outcome_iff_allPass reg mp exps forest).mpr hroots, hrules⟩

/-- C5: a result node's outcome is pass iff the record was found, every
explicitly expected attribute (status and exception included) matches, and
every applicable constraint of every referenced schema is satisfied, and
every event, metric and child check passed; equivalently the whole result
subtree passes; and `isPass()` holds iff every node of every root's subtree
and every structural rule passed. -/
theorem claim_C5_pass_characterization :
    (∀ (reg : SchemaRegistry) (mp : List ActualMetric) (e : ExpectedSpan)
        (pool : List ActualSpan),
      (validateSpan reg mp e pool).outcome = Outcome.pass ↔
        ∃ act, RecordMatcher.matchSpan e.name e.attributes pool = some act ∧
          (∀ k ∈ attrKeys e.attributes,
            lookupAttr act.attributes k = lookupAttr e.attributes k) ∧
          (∀ s, e.status = some s → act.status = some s) ∧
          (∀ x, e.exception = some x → act.exception = some x) ∧
          (∀ id ∈ e.schemas, ∀ d, reg.lookup id = some d → ∀ c ∈ d.attributes,
            ∀ reason, ConstraintEvaluator.evaluate c act.record ≠
              ConstraintResult.violated reason) ∧
          (∀ ee ∈ e.events, (validateEvent ee act.events).outcome = Outcome.pass) ∧
          (∀ em ∈ e.metrics, (validateMetric em mp).outcome = Outcome.pass) ∧
          (∀ c ∈ e.children,
            (validateSpan reg mp c act.children).outcome = Outcome.pass)) ∧
    (∀ (reg : SchemaRegistry) (mp : List ActualMetric) (e : ExpectedSpan)
        (pool : List ActualSpan),
      (validateSpan reg mp e pool).outcome = Outcome.pass ↔
        (validateSpan reg mp e pool).allPass = true) ∧
    (∀ (reg : SchemaRegistry) (rules : List ValidationRule)
        (exps : List ExpectedSpan) (forest : List ActualSpan)
        (mp : List ActualMetric) (report : ValidationReport),
      TreeValidator.validate reg rules exps forest mp = Except.ok report →
        (report.isPass = true ↔
          (ResultNode.allPassList report.roots = true ∧
            ∀ rc ∈ report.rules, rc.passed = true))) :=
  ⟨validateSpan_pass_iff, validateSpan_outcome_iff_allPass, validate_isPass_iff⟩

/-- Witness for C5: on the sample tree validated against its identical
capture, the root's whole result subtree passes. -/
theorem claim_C5_pass_characterization_witness :
    (validateSpan [] (collectMetrics sampleOkRoot) sampleOkRoot
        (toActualList [sampleOkRoot])).allPass = true :=
  (claim_C5_pass_characterization.2.1 [] (collectMetrics sampleOkRoot) sampleOkRoot
      (toActualList [sampleOkRoot])).mp (by decide)

theorem toActual_name (e : ExpectedSpan) : (toActual e).name = e.name := by
  cases e
  rfl

theorem toActual_record (e : ExpectedSpan) : (toActual e).record = e.record := by
  cases e with
  | node n attrs evs ms st ex schemas cs =>
    simp [toActual, ActualSpan.record, ExpectedSpan.record, ActualSpan.attributes,
      ActualSpan.events, List.map_map, Function.comp, toActualEvent]

theorem statusDiffs_self (s : Option SpanStatus) : statusDiffs s s = [] := by
  cases s <;> simp [statusDiffs]

theorem exceptionDiffs_self (x : Option SpanException) : exceptionDiffs x x = [] := by
  cases x <;> simp [exceptionDiffs]

theorem attrDiffs_self (m : AttributeMap) : attrDiffs m m = [] :=
  (attrDiffs_eq_nil_iff m m).mpr fun _ _ => rfl

theorem validateEvent_identical (ee : ExpectedEvent) (pool : List ActualEvent)
    (he : toActualEvent ee ∈ pool) :
    (validateEvent ee pool).outcome = Outcome.pass := by
  have hmemf : toActualEvent ee ∈ pool.filter fun a => a.name = ee.name :=
    List.mem_filter.mpr ⟨he, by simp [toActualEvent]⟩
  cases hm : RecordMatcher.matchEvent ee pool with
  | none =>
    exfalso
    have hm' : RecordMatcher.selectBest
        (fun a => attrScore ee.attributes a.attributes)
        (pool.filter fun a => a.name = ee.name) = none := hm
    have hnil := (RecordMatcher.selectBest_eq_none
      (fun a => attrScore ee.attributes a.attributes)
      (pool.filter fun a => a.name = ee.name)).mp hm'
    rw [hnil] at hmemf
    exact absurd hmemf (List.not_mem_nil _)
  | some a =>
    have hm' : RecordMatcher.selectBest
        (fun a => attrScore ee.attributes a.attributes)
        (pool.filter fun a => a.name = ee.name) = some a := hm
    have hle := RecordMatcher.selectBest_le
      (fun a => attrScore ee.attributes a.attributes)
      (pool.filter fun a => a.name = ee.name) a hm' (toActualEvent ee) hmemf
    have hfull : attrScore ee.attributes (toActualEvent ee).attributes =
        (attrKeys ee.attributes).length := attrScore_self _
    have heq : attrScore ee.attributes a.attributes = (attrKeys ee.attributes).length :=
      Nat.le_antisymm (attrScore_le_length _ _) (hfull ▸ hle)
    have hds : attrDiffs ee.attributes a.attributes = [] :=
      (attrDiffs_eq_nil_iff _ _).mpr ((attrScore_eq_length_iff _ _).mp heq)
    simp [validateEvent, hm, hds, LeafResult.outcome]

theorem validateMetric_identical (em : ExpectedMetric) (mp : List ActualMetric)
    (hm : toActualMetric em ∈ mp) :
    (validateMetric em mp).outcome = Outcome.pass := by
  have hcand : toActualMetric em ∈ RecordMatcher.metricCandidates em mp := by
    apply List.mem_filter.mpr
    exact ⟨hm, by simp [toActualMetric, attrsSubset_self]⟩
  cases hmatch : RecordMatcher.matchMetric em mp with
  | none =>
    exfalso
    have hmatch' : RecordMatcher.selectBest (RecordMatcher.metricScore em)
        (RecordMatcher.metricCandidates em mp) = none := hmatch
    have hnil := (RecordMatcher.selectBest_eq_none (RecordMatcher.metricScore em)
      (RecordMatcher.metricCandidates em mp)).mp hmatch'
    rw [hnil] at hcand
    exact absurd hcand (List.not_mem_nil _)
  | some am =>
    cases hv : em.value with
    | none => simp [validateMetric, hmatch, hv]
    | some v =>
      have hmatch' : RecordMatcher.selectBest (RecordMatcher.metricScore em)
          (RecordMatcher.metricCandidates em mp) = some am := hmatch
      have hle := RecordMatcher.selectBest_le (RecordMatcher.metricScore em)
        (RecordMatcher.metricCandidates em mp) am hmatch' (toActualMetric em) hcand
      have hid : RecordMatcher.metricScore em (toActualMetric em) =
          (attrKeys em.attributes).length + 1 := by
        unfold RecordMatcher.metricScore
        rw [hv]
        simp [toActualMetric, hv, attrScore_self]
      by_cases hval : am.value = v
      · simp [validateMetric, hmatch, hv, hval]
      · exfalso
        have hub : RecordMatcher.metricScore em am ≤ (attrKeys em.attributes).length := by
          unfold RecordMatcher.metricScore
          rw [hv]
          simpa [hval] using attrScore_le_length em.attributes am.attributes
        rw [hid] at hle
        omega

theorem namedCandidates_nil_of_not_mem (n : String) (cs : List ExpectedSpan)
    (hn : n ∉ cs.map ExpectedSpan.name) :
    RecordMatcher.namedCandidates n (toActualList cs) = [] := by
  induction cs with
  | nil => rfl
  | cons c cs ih =>
    simp only [List.map_cons, List.mem_cons, not_or] at hn
    obtain ⟨h1, h2⟩ := hn
    rw [toActualList]
    unfold RecordMatcher.namedCandidates
    rw [List.filter_cons]
    have hne : ¬((toActual c).name = n) := by
      rw [toActual_name]
      exact fun hEq => h1 hEq.symm
    simp only [hne, decide_eq_true_eq, if_neg hne, decide_eq_false hne]
    exact ih h2

theorem namedCandidates_toActualList (cs : List ExpectedSpan) (c : ExpectedSpan)
    (hmem : c ∈ cs) (hnd : (cs.map ExpectedSpan.name).Nodup) :
    RecordMatcher.namedCandidates c.name (toActualList cs) = [toActual c] := by
  induction cs with
  | nil => cases hmem
  | cons d ds ih =>
    rw [List.map_cons, List.nodup_cons] at hnd
    rw [toActualList]
    rcases List.mem_cons.mp hmem with rfl | hmem'
    · unfold RecordMatcher.namedCandidates
      rw [List.filter_cons]
      have hEq : (toActual c).name = c.name := toActual_name c
      simp only [hEq, decide_eq_true_eq, if_pos rfl, decide_True]
      rw [if_pos (by decide)]
      have := namedCandidates_nil_of_not_mem c.name ds hnd.1
      unfold RecordMatcher.namedCandidates at this
      rw [this]
    · have hdn : ¬((toActual d).name = c.name) := by
        rw [toActual_name]
        intro hEq
        exact hnd.1 (hEq ▸ List.mem_map_of_mem _ hmem')
      unfold RecordMatcher.namedCandidates
      rw [List.filter_cons]
      rw [if_neg (by simpa using hdn)]
      exact ih hmem' hnd.2

mutual

theorem schemasOk_refs_known (reg : SchemaRegistry) (e : ExpectedSpan)
    (hs : schemasOk reg e = true) :
    ∀ id ∈ collectSchemaRefs e, (reg.lookup id).isSome = true := by
  cases e with
  | node n attrs evs ms st ex schemas cs =>
    intro id hid
    rw [collectSchemaRefs] at hid
    rw [schemasOk] at hs
    simp only [Bool.and_eq_true] at hs
    rcases List.mem_append.mp hid with hi | hi
    · exact List.all_eq_true.mp hs.1.1 id hi
    · exact schemasOkList_refs_known reg cs hs.2 id hi

theorem schemasOkList_refs_known (reg : SchemaRegistry) (cs : List ExpectedSpan)
    (hs : schemasOkList reg cs = true) :
    ∀ id ∈ collectSchemaRefsList cs, (reg.lookup id).isSome = true := by
  cases cs with
  | nil =>
    intro id hid
    rw [collectSchemaRefsList] at hid
    cases hid
  | cons c cs' =>
    intro id hid
    rw [collectSchemaRefsList] at hid
    rw [schemasOkList] at hs
    simp only [Bool.and_eq_true] at hs
    rcases List.mem_append.mp hid with hi | hi
    · exact schemasOk_refs_known reg c hs.1 id hi
    · exact schemasOkList_refs_known reg cs' hs.2 id hi

end

mutual

theorem identicalSpanPasses (reg : SchemaRegistry) (mp : List ActualMetric)
    (e : ExpectedSpan) (pool : List ActualSpan)
    (hpool : RecordMatcher.namedCandidates e.name pool = [toActual e])
    (hd : distinctSiblings e = true) (hs : schemasOk reg e = true)
    (hmp : ∀ m ∈ collectMetrics e, m ∈ mp) :
    (validateSpan reg mp e pool).outcome = Outcome.pass := by
  cases e with
  | node n attrs evs ms st ex schemas cs =>
    rw [distinctSiblings] at hd
    rw [schemasOk] at hs
    simp only [Bool.and_eq_true, decide_eq_true_eq] at hd hs
    have hpool' : RecordMatcher.namedCandidates n pool =
        [toActual (.node n attrs evs ms st ex schemas cs)] := hpool
    have hmatch : RecordMatcher.matchSpan n attrs pool =
        some (toActual (.node n attrs evs ms st ex schemas cs)) := by
      unfold RecordMatcher.matchSpan
      rw [hpool']
      rfl
    rw [validateSpan, hmatch]
    apply (nodeResult_outcome_pass_iff _ _ _ _ _ _).mpr
    refine ⟨?_, ?_, ?_, ?_, ?_⟩
    · show attrDiffs attrs attrs ++ statusDiffs st st ++ exceptionDiffs ex ex = []
      rw [attrDiffs_self, statusDiffs_self, exceptionDiffs_self]
      rfl
    · show schemaViolations reg schemas
        (toActual (.node n attrs evs ms st ex schemas cs)).record = []
      rw [toActual_record]
      exact List.isEmpty_iff.mp hs.1.2
    · intro r hr
      rcases List.mem_map.mp hr with ⟨ee, hee, rfl⟩
      apply validateEvent_identical
      show toActualEvent ee ∈ evs.map toActualEvent
      exact List.mem_map_of_mem _ hee
    · intro r hr
      rcases List.mem_map.mp hr with ⟨em, hem, rfl⟩
      apply validateMetric_identical
      apply hmp
      rw [collectMetrics]
      exact List.mem_append_left _ (List.mem_map_of_mem _ hem)
    · intro r hr
      have hr' : r ∈ validateSpans reg mp cs (toActualList cs) := hr
      refine identicalSpansPass reg mp cs (toActualList cs) ?_ hd.2 hs.2 ?_ r hr'
      · intro c hc
        exact namedCandidates_toActualList cs c hc hd.1
      · intro m hm
        apply hmp
        rw [collectMetrics]
        exact List.mem_append_right _ hm

theorem identicalSpansPass (reg : SchemaRegistry) (mp : List ActualMetric)
    (cs : List ExpectedSpan) (pool : List ActualSpan)
    (hp : ∀ c ∈ cs, RecordMatcher.namedCandidates c.name pool = [toActual c])
    (hd : distinctSiblingsList cs = true)
    (hs : schemasOkList reg cs = true)
    (hmp : ∀ m ∈ collectMetricsList cs, m ∈ mp) :
    ∀ r ∈ validateSpans reg mp cs pool, r.outcome = Outcome.pass := by
  cases cs with
  | nil =>
    intro r hr
    rw [validateSpans] at hr
    cases hr
  | cons c cs' =>
    intro r hr
    rw [validateSpans] at hr
    rw [distinctSiblingsList] at hd
    rw [schemasOkList] at hs
    simp only [Bool.and_eq_true] at hd hs
    rcases List.mem_cons.mp hr with rfl | hr'
    · refine identicalSpanPasses reg mp c pool (hp c (List.mem_cons_self c cs')) hd.1 hs.1 ?_
      intro m hm
      apply hmp
      rw [collectMetricsList]
      exact List.mem_append_left _ hm
    · refine identicalSpansPass reg mp cs' pool
        (fun d hdm => hp d (List.mem_cons_of_mem _ hdm)) hd.2 hs.2 ?_ r hr'
      intro m hm
      apply hmp
      rw [collectMetricsList]
      exact List.mem_append_right _ hm

end

/-- Counterexample to C6 as stated: an expected root with two same-named
children, the earlier carrying a superset of the later one's attributes and
the later having a child of its own; validated against its exactly identical
actual tree, the matcher selects the earlier sibling for the later expected
child, its child `z` is reported missing, and `isPass()` is false. -/
theorem claim_C6_identical_tree_counterexample :
    (TreeValidator.validate [] [] [dupNameRoot] (toActualList [dupNameRoot])
        (collectMetrics dupNameRoot)).toOption.map ValidationReport.isPass =
      some false := by
  rfl

/-- C6 (amended): validating an expected tree against its identical actual
tree yields a passing report, provided sibling expected spans have pairwise
distinct names at every level and every schema identifier referenced by any
node is registered with its applicable constraints satisfied by that node's
own attributes. -/
theorem claim_C6_identical_tree_passes (reg : SchemaRegistry) (e : ExpectedSpan)
    (hd : distinctSiblings e = true) (hs : schemasOk reg e = true)
    (report : ValidationReport)
    (hrep : TreeValidator.validate reg [] [e] (toActualList [e])
      (collectMetrics e) = Except.ok report) :
    report.isPass = true := by
  have hfind : (collectSchemaRefsList [e]).find?
      (fun id => (reg.lookup id).isNone) = none := by
    rw [List.find?_eq_none]
    intro id hid
    have hid' : id ∈ collectSchemaRefs e := by
      have : collectSchemaRefsList [e] = collectSchemaRefs e ++ [] := by
        rw [collectSchemaRefsList, collectSchemaRefsList]
      rw [this, List.append_nil] at hid
      exact hid
    have hk := schemasOk_refs_known reg e hs id hid'
    cases hlook : reg.lookup id with
    | none => rw [hlook] at hk; exact absurd hk (by decide)
    | some d => simp [hlook]
  unfold TreeValidator.validate at hrep
  rw [hfind] at hrep
  injection hrep with hrep
  subst hrep
  unfold ValidationReport.isPass
  simp only [List.map_nil, List.all_nil, Bool.and_true, List.all_eq_true,
    decide_eq_true_eq]
  apply identicalSpansPass reg (collectMetrics e) [e] (toActualList [e])
  · intro c hc
    rcases List.mem_singleton.mp hc with rfl
    show RecordMatcher.namedCandidates c.name (toActual c :: toActualList []) = [toActual c]
    unfold RecordMatcher.namedCandidates
    rw [List.filter_cons]
    rw [if_pos (by simp [toActual_name])]
    rfl
  · rw [distinctSiblingsList, distinctSiblingsList]
    simp [hd]
  · rw [schemasOkList, schemasOkList]
    simp [hs]
  · intro m hm
    rw [collectMetricsList, collectMetricsList, List.append_nil] at hm
    exact hm

/-- Witness for the amended C6: the sample distinct-named tree validated
against its identical capture yields a passing report. -/
theorem claim_C6_identical_tree_passes_witness :
    sampleOkReport.isPass = true :=
  claim_C6_identical_tree_passes [] sampleOkRoot (by decide) (by decide)
    sampleOkReport rfl

/-- C10: `verify_tool_span` raises `AssertionError` exactly when the number
of spans whose parent is `parent_span_id` and whose `gen_ai.operation.name`
equals `execute_tool` differs from `expected_count`, or when a tool name is
given and none of those spans carries it under `gen_ai.tool.name`; otherwise
it returns a single span when exactly one qualifies (`expected_count == 1`
without a tool name, or exactly one name match) and a list of spans
otherwise. -/
theorem claim_C10_verify_tool_span (spans : List SpanRecord) (parent : Nat)
    (tn : Option String) (ec : Nat) :
    ((∃ msg, GenAISpanValidator.verify_tool_span spans parent tn ec =
        Except.error msg) ↔
      ((GenAISpanValidator.toolSpansOf spans parent).length ≠ ec ∨
        ∃ t, tn = some t ∧ GenAISpanValidator.matchingOf spans parent t = [])) ∧
    (∀ t s, tn = some t →
      (GenAISpanValidator.toolSpansOf spans parent).length = ec →
      GenAISpanValidator.matchingOf spans parent t = [s] →
      GenAISpanValidator.verify_tool_span spans parent tn ec =
        Except.ok (ToolSpanResult.single s)) ∧
    (∀ t s1 s2 rest, tn = some t →
      (GenAISpanValidator.toolSpansOf spans parent).length = ec →
      GenAISpanValidator.matchingOf spans parent t = s1 :: s2 :: rest →
      GenAISpanValidator.verify_tool_span spans parent tn ec =
        Except.ok (ToolSpanResult.multiple (s1 :: s2 :: rest))) ∧
    (∀ s, tn = none → GenAISpanValidator.toolSpansOf spans parent = [s] →
      ec = 1 →
      GenAISpanValidator.verify_tool_span spans parent tn ec =
        Except.ok (ToolSpanResult.single s)) ∧
    (tn = none → (GenAISpanValidator.toolSpansOf spans parent).length = ec →
      ec ≠ 1 →
      GenAISpanValidator.verify_tool_span spans parent tn ec =
        Except.ok (ToolSpanResult.multiple
          (GenAISpanValidator.toolSpansOf spans parent))) := by
  refine ⟨⟨?_, ?_⟩, ?_, ?_, ?_, ?_⟩
  · rintro ⟨msg, hmsg⟩
    simp only [GenAISpanValidator.verify_tool_span] at hmsg
    by_cases hlen : (GenAISpanValidator.toolSpansOf spans parent).length = ec
    · rw [dif_pos hlen] at hmsg
      cases tn with
      | none =>
        exfalso
        by_cases h1 : ec = 1
        · rw [dif_pos h1] at hmsg
          exact Except.noConfusion hmsg
        · rw [dif_neg h1] at hmsg
          exact Except.noConfusion hmsg
      | some t =>
        refine Or.inr ⟨t, rfl, ?_⟩
        have hmsg2 : (match GenAISpanValidator.matchingOf spans parent t with
            | [] => Except.error ("Tool span for " ++ t ++ " not found")
            | [s] => Except.ok (ToolSpanResult.single s)
            | ss => Except.ok (ToolSpanResult.multiple ss)) = Except.error msg := hmsg
        cases hmatch : GenAISpanValidator.matchingOf spans parent t with
        | nil => rfl
        | cons s1 rest =>
          exfalso
          rw [hmatch] at hmsg2
          cases rest with
          | nil => exact Except.noConfusion hmsg2
          | cons s2 rest' => exact Except.noConfusion hmsg2
    · exact Or.inl hlen
  · intro h
    rcases h with hlen | ⟨t, ht, hmatch⟩
    · refine ⟨"Expected " ++ toString ec ++ " tool spans, got " ++
        toString (GenAISpanValidator.toolSpansOf spans parent).length, ?_⟩
      simp only [GenAISpanValidator.verify_tool_span]
      rw [dif_neg hlen]
    · by_cases hlen : (GenAISpanValidator.toolSpansOf spans parent).length = ec
      · refine ⟨"Tool span for " ++ t ++ " not found", ?_⟩
        simp only [GenAISpanValidator.verify_tool_span]
        rw [dif_pos hlen]
        subst ht
        show (match GenAISpanValidator.matchingOf spans parent t with
            | [] => Except.error ("Tool span for " ++ t ++ " not found")
            | [s] => Except.ok (ToolSpanResult.single s)
            | ss => Except.ok (ToolSpanResult.multiple ss)) =
          Except.error ("Tool span for " ++ t ++ " not found")
        rw [hmatch]
      · refine ⟨"Expected " ++ toString ec ++ " tool spans, got " ++
          toString (GenAISpanValidator.toolSpansOf spans parent).length, ?_⟩
        simp only [GenAISpanValidator.verify_tool_span]
        rw [dif_neg hlen]
  · intro t s ht hlen hmatch
    simp only [GenAISpanValidator.verify_tool_span]
    rw [dif_pos hlen]
    subst ht
    show (match GenAISpanValidator.matchingOf spans parent t with
        | [] => Except.error ("Tool span for " ++ t ++ " not found")
        | [s] => Except.ok (ToolSpanResult.single s)
        | ss => Except.ok (ToolSpanResult.multiple ss)) =
      Except.ok (ToolSpanResult.single s)
    rw [hmatch]
  · intro t s1 s2 rest ht hlen hmatch
    simp only [GenAISpanValidator.verify_tool_span]
    rw [dif_pos hlen]
    subst ht
    show (match GenAISpanValidator.matchingOf spans parent t with
        | [] => Except.error ("Tool span for " ++ t ++ " not found")
        | [s] => Except.ok (ToolSpanResult.single s)
        | ss => Except.ok (ToolSpanResult.multiple ss)) =
      Except.ok (ToolSpanResult.multiple (s1 :: s2 :: rest))
    rw [hmatch]
  · intro s ht hts hec
    have hlen : (GenAISpanValidator.toolSpansOf spans parent).length = ec := by
      rw [hts, hec]
      rfl
    have h0 : (0 : Nat) < (GenAISpanValidator.toolSpansOf spans parent).length := by
      omega
    have hget : (GenAISpanValidator.toolSpansOf spans parent).get ⟨0, h0⟩ = s := by
      rw [List.get_of_eq hts]
      rfl
    simp only [GenAISpanValidator.verify_tool_span]
    rw [dif_pos hlen]
    subst ht
    rw [dif_pos hec]
    exact congrArg (fun x => Except.ok (ToolSpanResult.single x)) hget
  · intro ht hlen hec
    simp only [GenAISpanValidator.verify_tool_span]
    rw [dif_pos hlen]
    subst ht
    rw [dif_neg hec]

/-- Witness for C10: on three concrete spans (two execute_tool children of
parent 7, one of parent 9), asking for parent 7 with tool `get_weather` and
count 2 returns that single matching span. -/
theorem claim_C10_verify_tool_span_witness :
    GenAISpanValidator.verify_tool_span
        [toolSpanWeather, toolSpanNews, toolSpanOtherParent] 7
        (some "get_weather") 2 =
      Except.ok (ToolSpanResult.single toolSpanWeather) :=
  (claim_C10_verify_tool_span [toolSpanWeather, toolSpanNews, toolSpanOtherParent]
      7 (some "get_weather") 2).2.1 "get_weather" toolSpanWeather rfl
    (by decide) (by decide)

end OtelValidation
